import Mathlib

/-!
Verification of the devkit secure image-delivery pipeline and its helpers.

This file gives a shallow embedding, in Lean 4, of the Python code in
`src/devkit/versioning.py`, `src/devkit/docker.py` and the `secure`
subcommand of `src/devkit/cli.py`, and proves or refutes the spec claims
about them.

Modelling conventions:
* Python strings are Lean `String`s; where character-level scanning matters
  (the `re.sub` calls of `update_version_in_files`) we work on `List Char`,
  which is what `String.data` yields.
* Interactions with the outside world (subprocess results, the filesystem,
  the clock, environment variables) are passed in explicitly as environment
  records; each field corresponds to one external observation the Python
  code makes.
* Python exceptions are `Except` errors; a function that may raise an
  uncaught exception returns `Except`/`Option`.
-/

namespace Devkit

/-! ## Python `str.split(sep)` on a single-character separator

`"a.b".split('.') = ["a","b"]`, `"".split('.') = [""]`,
`"a..b".split('.') = ["a","","b"]`. -/

def splitOn (sep : Char) : List Char → List (List Char)
  | [] => [[]]
  | c :: cs =>
    if c = sep then [] :: splitOn sep cs
    else
      match splitOn sep cs with
      | [] => [[c]]
      | h :: t => (c :: h) :: t

/-! ## versioning.py -/

/-- `VersionBump` enum from `devkit/versioning.py`. -/
inductive VersionBump where
  | major
  | minor
  | patch
deriving DecidableEq

def isDigit (c : Char) : Bool := '0' ≤ c && c ≤ '9'

/-- Python `int` on a (non-empty, all-digit) decimal string. -/
def natOfDigits (l : List Char) : Nat :=
  l.foldl (fun n c => n * 10 + (c.toNat - '0'.toNat)) 0

/-- `parse_semantic_version`: matches `^(\d+)\.(\d+)\.(\d+)$` and returns the
three integer groups; `none` models the raised `ValueError`.  The regex is
realised as: the string (less one optional trailing newline, which Python's
`$` tolerates) splits on `.` into exactly three non-empty all-digit
components.  `\d` is modelled as the ASCII digits (Python's `\d` also
accepts other Unicode decimal digits; those are outside the modelled
domain). -/
def parse_semantic_version (version : String) : Option (Nat × Nat × Nat) :=
  let data :=
    match version.data.getLast? with
    | some '\n' => version.data.dropLast
    | _ => version.data
  match splitOn '.' data with
  | [a, b, c] =>
    if a ≠ [] && a.all isDigit && b ≠ [] && b.all isDigit
        && c ≠ [] && c.all isDigit then
      some (natOfDigits a, natOfDigits b, natOfDigits c)
    else none
  | _ => none

/-- `bump_version` from `devkit/versioning.py`; `none` models the
`ValueError` raised on an invalid current version. -/
def bump_version (currentVersion : String) (bumpType : VersionBump) :
    Option String :=
  (parse_semantic_version currentVersion).map fun (M, m, p) =>
    match bumpType with
    | .major => toString (M + 1) ++ ".0.0"
    | .minor => toString M ++ "." ++ toString (m + 1) ++ ".0"
    | .patch => toString M ++ "." ++ toString m ++ "." ++ toString (p + 1)

/-! ## docker.py: `generate_docker_tags`

The function reads the clock (`time.strftime("%Y%m%d")`) and runs
`git rev-parse --short HEAD`; both observations are passed in: `dateStr`
is the formatted UTC date and `gitHash` is `some h` when the git call
succeeds and `none` when it raises (`CalledProcessError`/`FileNotFoundError`),
in which case the Python code silently skips the hash tag.

`version.split('.')` is indexed at `[0]` and `[1]`; with fewer than two
components Python raises an uncaught `IndexError`, modelled by `none`. -/

def generate_docker_tags (baseName version : String)
    (includeLatest chainguardTags : Bool)
    (dateStr : String) (gitHash : Option String) : Option (List String) :=
  match splitOn '.' version.data with
  | p0 :: p1 :: _ =>
    let tags := [baseName ++ ":" ++ version,
                 baseName ++ ":" ++ String.mk p0 ++ "." ++ String.mk p1]
    let tags := tags ++ [baseName ++ ":" ++ String.mk p0]
    let tags := if includeLatest then tags ++ [baseName ++ ":latest"] else tags
    let tags :=
      if chainguardTags then
        let tags := tags ++ [baseName ++ ":" ++ dateStr]
        match gitHash with
        | some h => tags ++ [baseName ++ ":" ++ h]
        | none => tags
      else tags
    some tags
  | _ => none

/-! ## docker.py: `scan_docker_image` (result analysis)

The subprocess plumbing (docker/trivy presence, the trivy call itself) is
external; what the claims are about is how the scan report is turned into a
pass/fail verdict, for both output formats.  A JSON report is the structure
trivy returns: a list of result groups, each with a list of vulnerability
entries whose `Severity` field may be absent (Python:
`vuln.get("Severity", "UNKNOWN")`). -/

structure Vuln where
  severity : Option String
deriving DecidableEq

structure ResultGroup where
  vulnerabilities : List Vuln
deriving DecidableEq

structure ScanReport where
  results : List ResultGroup
deriving DecidableEq

structure VulnCounts where
  critical : Nat
  high : Nat
  medium : Nat
  low : Nat
  unknown : Nat
deriving DecidableEq

def VulnCounts.init : VulnCounts := ⟨0, 0, 0, 0, 0⟩

/-- One loop iteration: `if severity in vuln_counts: vuln_counts[severity] += 1`. -/
def bumpCount (vc : VulnCounts) (sev : String) : VulnCounts :=
  if sev = "CRITICAL" then { vc with critical := vc.critical + 1 }
  else if sev = "HIGH" then { vc with high := vc.high + 1 }
  else if sev = "MEDIUM" then { vc with medium := vc.medium + 1 }
  else if sev = "LOW" then { vc with low := vc.low + 1 }
  else if sev = "UNKNOWN" then { vc with unknown := vc.unknown + 1 }
  else vc

/-- The severity-aggregation loops of `scan_docker_image` in JSON mode. -/
def countVulns (rep : ScanReport) : VulnCounts :=
  rep.results.foldl
    (fun vc g =>
      g.vulnerabilities.foldl
        (fun vc v => bumpCount vc (v.severity.getD "UNKNOWN")) vc)
    VulnCounts.init

/-- `scan_docker_image` with `output_format="json"`, applied to a parsed
report: returns the pass verdict and the aggregated counts. -/
def scan_docker_image_json (rep : ScanReport) : Bool × VulnCounts :=
  ((countVulns rep).critical == 0, countVulns rep)

/-- Boolean prefix test on char lists. -/
def isPrefixList : List Char → List Char → Bool
  | [], _ => true
  | _ :: _, [] => false
  | a :: as, b :: bs => a = b && isPrefixList as bs

/-- Python's substring containment `needle in hay`. -/
def containsSeq (needle : List Char) : List Char → Bool
  | [] => isPrefixList needle []
  | c :: cs => isPrefixList needle (c :: cs) || containsSeq needle cs

/-- `scan_docker_image` with `output_format="text"`, applied to the scanner's
stdout: `has_critical = "CRITICAL" in result.stdout`. -/
def scan_docker_image_text (stdout : String) : Bool × String :=
  (!containsSeq "CRITICAL".data stdout.data, stdout)

/-! ## docker.py: `build_docker_image` -/

/-- External observations `build_docker_image` makes. -/
structure BuildEnv where
  /-- result of `check_docker_installed()` -/
  dockerInstalled : Bool
  /-- `os.path.exists` -/
  fileExists : String → Bool
  /-- `os.path.basename(os.path.abspath("."))` -/
  projectName : String
  /-- `get_current_version()` -/
  currentVersion : String
  /-- whether `subprocess.run(cmd, check=True)` of the build succeeds -/
  buildSucceeds : Bool
  /-- rendering of the `CalledProcessError` on a failed build -/
  buildErr : String

/-- The `docker build` command line assembled by `build_docker_image`. -/
def buildCmd (buildArgs : List (String × String)) (platform : Option String)
    (imageName dockerfilePath : String) (cache : Bool)
    (contextPath : String) : List String :=
  ["docker", "build"]
    ++ buildArgs.flatMap (fun kv => ["--build-arg", kv.1 ++ "=" ++ kv.2])
    ++ (match platform with | some p => ["--platform", p] | none => [])
    ++ ["-t", imageName] ++ ["-f", dockerfilePath]
    ++ (if cache then [] else ["--no-cache"])
    ++ [contextPath]

/-- `build_docker_image`; the second component records whether the
`docker build` subprocess was invoked at all.  `.error` models a raised
`DockerError`.  Python's `if not image_name:` treats both `None` and the
empty string as absent. -/
def build_docker_image (env : BuildEnv) (dockerfilePath contextPath : String)
    (imageName : Option String) (buildArgs : List (String × String))
    (cache : Bool) (platform : Option String) :
    Except String String × Bool :=
  if !env.dockerInstalled then
    (.error "Docker is not installed or not in PATH", false)
  else if !env.fileExists dockerfilePath then
    (.error ("Dockerfile not found at " ++ dockerfilePath), false)
  else
    let name :=
      match imageName with
      | some n => if n = "" then env.projectName ++ ":" ++ env.currentVersion else n
      | none => env.projectName ++ ":" ++ env.currentVersion
    let _ := buildCmd buildArgs platform name dockerfilePath cache contextPath
    if env.buildSucceeds then (.ok name, true)
    else (.error ("Docker build failed: " ++ env.buildErr), true)

/-! ## docker.py: `sign_image` and `verify_image_signature` -/

/-- External observations of the signing/verification helpers. -/
structure SignEnv where
  /-- result of `check_tool_installed("cosign")` -/
  cosignInstalled : Bool
  /-- `"GITHUB_ACTIONS" in os.environ` -/
  githubActions : Bool
  /-- outcome of running the `cosign sign` command: success flag and stderr -/
  signRun : Bool × String
  /-- outcome of running the `cosign verify` command: success flag, stdout, stderr -/
  verifyRun : Bool × String × String

/-- `sign_image`; the second component records whether a `cosign sign`
subprocess was invoked.  Python's `if not key_path:` treats `None` and the
empty string as absent. -/
def sign_image (env : SignEnv) (imageName : String)
    (keyPath : Option String) : (Bool × String) × Bool :=
  if !env.cosignInstalled then
    ((false, "Cosign is not installed or not in PATH"), false)
  else
    let keyless := match keyPath with | none => true | some k => k = ""
    if keyless && !env.githubActions then
      ((false, "Keyless signing requires CI environment or explicit key path"),
        false)
    else
      let _ := imageName
      if env.signRun.1 then ((true, "Image signed successfully"), true)
      else ((false, "Error signing image: " ++ env.signRun.2), true)

/-- `verify_image_signature`; the second component records whether a
`cosign verify` subprocess was invoked. -/
def verify_image_signature (env : SignEnv) (imageName : String)
    (keyPath : Option String) : (Bool × String) × Bool :=
  if !env.cosignInstalled then
    ((false, "Cosign is not installed or not in PATH"), false)
  else
    let _ := (imageName, keyPath)
    match env.verifyRun with
    | (true, out, _) => ((true, out), true)
    | (false, _, err) => ((false, "Error verifying image signature: " ++ err), true)

/-! ## docker.py: `secure_pipeline` and the `secure` CLI subcommand

The pipeline is a straight-line orchestration of subprocess-backed stages;
each stage's external outcome is a field of `PipelineEnv`.  An `Except.error`
outcome of a stage models an exception raised inside that stage's
`try:` block (and caught there); the pipeline itself returns
`Except.error` only for the one spot that can raise outside every
`try:` block: `generate_docker_tags` called in the tag stage
(an `IndexError` on a malformed current version). -/

/-- Value stored under a stage's `output` key in the results dict. -/
inductive StageOutput where
  | null
  | str (s : String)
  | strs (l : List String)
  | policies (l : List (String × Bool × String))
deriving DecidableEq

/-- One entry of the results dict: `{"success": ..., "output": ...}`. -/
structure StageResult where
  success : Bool
  output : StageOutput
deriving DecidableEq

/-- The results dict.  A field is `none` when the corresponding key is
absent from the dict. -/
structure PipelineResults where
  build : Option StageResult
  test : Option StageResult
  scan : Option StageResult
  sbom : Option StageResult
  policy : Option StageResult
  tag : Option StageResult
  sign : Option StageResult
  push : Option StageResult
deriving DecidableEq

/-- The dict literal at the top of `secure_pipeline`: `build`, `scan`,
`sbom`, `policy`, `sign`, `push` are pre-initialised to
`{"success": False, "output": None}`; `test` and `tag` are absent. -/
def initResults : PipelineResults :=
  { build := some ⟨false, .null⟩
    test := none
    scan := some ⟨false, .null⟩
    sbom := some ⟨false, .null⟩
    policy := some ⟨false, .null⟩
    tag := none
    sign := some ⟨false, .null⟩
    push := some ⟨false, .null⟩ }

/-- External outcomes observed by one `secure_pipeline` run.
`Except.error e` models an exception whose `str(e)` is `e`. -/
structure PipelineEnv where
  /-- `build_docker_image(...)`: the built image name, or a raised error -/
  buildOutcome : Except String String
  /-- `test_docker_image(...)`: `(success, output)`, or a raised error -/
  testOutcome : Except String (Bool × String)
  /-- `scan_docker_image(..., output_format="json")`: `(success, output)` with
  the report rendered opaquely, or a raised `DockerError` -/
  scanOutcome : Except String (Bool × String)
  /-- `generate_sbom(...)` (plus `os.makedirs`): `(success, pathOrError)` -/
  sbomOutcome : Except String (Bool × String)
  /-- `check_kyverno_policy(manifest, f)` per policy file (total: it catches
  its own subprocess errors and returns a pair) -/
  policyCheck : String → Bool × String
  /-- `get_current_version()` read in the tag stage -/
  currentVersion : String
  /-- `time.strftime("%Y%m%d")`, unused since the tag stage passes
  `chainguard_tags=False` -/
  dateStr : String
  /-- short HEAD hash, likewise unused in the tag stage -/
  gitHash : Option String
  /-- `tag_docker_image(built, target_tags)`: tags that succeeded, or a raise -/
  tagOutcome : Except String (List String)
  /-- `sign_image(target_tags[0], signing_key)`: `(success, message)` -/
  signOutcome : Bool × String
  /-- `push_docker_image(target_tags)`: tags pushed, or a raise -/
  pushOutcome : Except String (List String)

/-- Python truthiness of the `registry` / `k8s_manifest` string options. -/
def strTruthy : Option String → Bool
  | none => false
  | some s => s ≠ ""

/-- Python truthiness of the `policy_files` list option. -/
def listTruthy : Option (List String) → Bool
  | none => false
  | some l => l ≠ []

/-- Stages 4-8 of `secure_pipeline` (SBOM onwards), shared by the two paths
that reach them (scan succeeded, or scan raised and was caught). -/
def pipelineAfterScan (env : PipelineEnv) (registry : Option String)
    (policyFiles : Option (List String)) (k8sManifest : Option String)
    (push : Bool) (r : PipelineResults) : Except String PipelineResults :=
  -- 4. SBOM (non-fatal either way)
  let r :=
    match env.sbomOutcome with
    | .ok (ok, out) => { r with sbom := some ⟨ok, .str out⟩ }
    | .error e => { r with sbom := some ⟨false, .str e⟩ }
  -- 5. policy check, only when both options are truthy
  let r :=
    if listTruthy policyFiles && strTruthy k8sManifest then
      let fs := policyFiles.getD []
      let perFile := fs.map fun f => (f, (env.policyCheck f).1, (env.policyCheck f).2)
      let overall := fs.all fun f => (env.policyCheck f).1
      { r with policy := some ⟨overall, .policies perFile⟩ }
    else r
  -- 6-8. tag / sign / push, only when a registry was given
  if strTruthy registry then
    match generate_docker_tags (registry.getD "") env.currentVersion
        true false env.dateStr env.gitHash with
    | none => .error "IndexError: list index out of range"
    | some _targetTags =>
      match env.tagOutcome with
      | .error e => .ok { r with tag := some ⟨false, .str e⟩ }  -- returns early
      | .ok tagged =>
        let r := { r with tag := some ⟨tagged.length != 0, .strs tagged⟩ }
        -- 7. sign (non-fatal)
        let r := { r with sign := some ⟨env.signOutcome.1, .str env.signOutcome.2⟩ }
        -- 8. push (non-fatal), only if requested
        let r :=
          if push then
            match env.pushOutcome with
            | .ok pushed => { r with push := some ⟨pushed.length != 0, .strs pushed⟩ }
            | .error e => { r with push := some ⟨false, .str e⟩ }
          else r
        .ok r
  else .ok r

/-- `secure_pipeline` from `devkit/docker.py`. -/
def secure_pipeline (env : PipelineEnv) (registry : Option String)
    (policyFiles : Option (List String)) (k8sManifest : Option String)
    (push : Bool) : Except String PipelineResults :=
  let r := initResults
  -- 1. build (fatal)
  match env.buildOutcome with
  | .error e => .ok { r with build := some ⟨false, .str e⟩ }
  | .ok built =>
    let r := { r with build := some ⟨true, .str built⟩ }
    -- 2. test (fatal)
    match env.testOutcome with
    | .error e => .ok { r with test := some ⟨false, .str e⟩ }
    | .ok (false, out) => .ok { r with test := some ⟨false, .str out⟩ }
    | .ok (true, out) =>
      let r := { r with test := some ⟨true, .str out⟩ }
      -- 3. scan: fatal when the scan reports failure, but a raised
      -- exception is caught, recorded, and the pipeline continues
      match env.scanOutcome with
      | .ok (false, out) => .ok { r with scan := some ⟨false, .str out⟩ }
      | .ok (true, out) =>
        pipelineAfterScan env registry policyFiles k8sManifest push
          { r with scan := some ⟨true, .str out⟩ }
      | .error e =>
        pipelineAfterScan env registry policyFiles k8sManifest push
          { r with scan := some ⟨false, .str e⟩ }

/-- Exit-code logic at the end of the `secure` CLI subcommand: `sys.exit(1)`
if `build` failed, if a `scan` key is present and failed, or if a `policy`
key is present and failed; 0 otherwise.  (A missing `build` key would raise
`KeyError`, caught by the subcommand's `except` which exits 1.) -/
def secureExit (r : PipelineResults) : Nat :=
  match r.build with
  | none => 1
  | some b =>
    if !b.success then 1
    else if (match r.scan with | some sc => !sc.success | none => false) then 1
    else if (match r.policy with | some p => !p.success | none => false) then 1
    else 0

/-- The `secure` CLI subcommand's process exit code for one run: any
exception escaping `secure_pipeline` is caught and exits 1; otherwise the
fatal-stage checks run on the returned results dict. -/
def secureCmdExit (env : PipelineEnv) (registry : Option String)
    (policyFiles : Option (List String)) (k8sManifest : Option String)
    (push : Bool) : Nat :=
  match secure_pipeline env registry policyFiles k8sManifest push with
  | .error _ => 1
  | .ok r => secureExit r

/-! ## Specification-level helpers used to state the claims -/

/-- Total number of vulnerability entries whose (defaulted) severity is
`CRITICAL`, across all result groups — the reference count the spec's
"aggregates per-severity counts" is compared against. -/
def criticalCount (rep : ScanReport) : Nat :=
  (rep.results.map fun g =>
    (g.vulnerabilities.filter fun v => v.severity.getD "UNKNOWN" = "CRITICAL").length).sum

theorem isPrefixList_iff (n h : List Char) :
    isPrefixList n h = true ↔ ∃ t, h = n ++ t := by
  induction n generalizing h with
  | nil => simp [isPrefixList]
  | cons a as ih =>
    cases h with
    | nil => simp [isPrefixList]
    | cons b bs =>
      simp only [isPrefixList, Bool.and_eq_true, decide_eq_true_eq, ih,
        List.cons_append, List.cons.injEq]
      constructor
      · rintro ⟨rfl, t, rfl⟩; exact ⟨t, rfl, rfl⟩
      · rintro ⟨t, rfl, rfl⟩; exact ⟨rfl, t, rfl⟩

theorem containsSeq_iff (n h : List Char) :
    containsSeq n h = true ↔ ∃ pre post, h = pre ++ n ++ post := by
  induction h with
  | nil =>
    simp only [containsSeq, isPrefixList_iff]
    constructor
    · rintro ⟨t, ht⟩; exact ⟨[], t, by simpa using ht⟩
    · rintro ⟨pre, post, hp⟩
      have h1 := List.append_eq_nil.mp hp.symm
      have h2 := List.append_eq_nil.mp h1.1
      exact ⟨[], by simp [h2.2]⟩
  | cons c cs ih =>
    simp only [containsSeq, Bool.or_eq_true, isPrefixList_iff, ih]
    constructor
    · rintro (⟨t, ht⟩ | ⟨pre, post, hp⟩)
      · exact ⟨[], t, by simpa using ht⟩
      · exact ⟨c :: pre, post, by simp [hp]⟩
    · rintro ⟨pre, post, hp⟩
      cases pre with
      | nil => exact .inl ⟨post, by simpa using hp⟩
      | cons x xs =>
        simp only [List.cons_append, List.cons.injEq] at hp
        exact .inr ⟨xs, post, hp.2⟩

theorem bumpCount_critical (vc : VulnCounts) (sev : String) :
    (bumpCount vc sev).critical =
      vc.critical + (if sev = "CRITICAL" then 1 else 0) := by
  by_cases h : sev = "CRITICAL"
  · simp [bumpCount, h]
  · simp only [bumpCount, if_neg h]
    split <;> try rfl
    split <;> try rfl
    split <;> try rfl
    split <;> rfl

theorem foldVulns_critical (l : List Vuln) (vc : VulnCounts) :
    (l.foldl (fun vc v => bumpCount vc (v.severity.getD "UNKNOWN")) vc).critical =
      vc.critical +
        (l.filter fun v => v.severity.getD "UNKNOWN" = "CRITICAL").length := by
  induction l generalizing vc with
  | nil => simp
  | cons v vs ih =>
    simp only [List.foldl_cons, ih, bumpCount_critical, List.filter_cons]
    by_cases h : v.severity.getD "UNKNOWN" = "CRITICAL" <;> simp [h] <;> omega

theorem countVulns_critical (rep : ScanReport) :
    (countVulns rep).critical = criticalCount rep := by
  show (rep.results.foldl _ VulnCounts.init).critical = _
  have main : ∀ (gs : List ResultGroup) (vc : VulnCounts),
      (gs.foldl (fun vc g =>
        g.vulnerabilities.foldl
          (fun vc v => bumpCount vc (v.severity.getD "UNKNOWN")) vc) vc).critical =
      vc.critical + (gs.map fun g =>
        (g.vulnerabilities.filter fun v =>
          v.severity.getD "UNKNOWN" = "CRITICAL").length).sum := by
    intro gs
    induction gs with
    | nil => simp
    | cons g gs ih =>
      intro vc
      simp only [List.foldl_cons, ih, foldVulns_critical, List.map_cons,
        List.sum_cons]
      omega
  simpa [criticalCount, countVulns, VulnCounts.init] using main rep.results VulnCounts.init

/-! ## Claim theorems -/

/-- C4: for every version string matching `^\d+\.\d+\.\d+$` with numeric
components `M`, `m`, `p`, `bump_version` with PATCH yields `M.m.(p+1)`,
with MINOR yields `M.(m+1).0`, and with MAJOR yields `(M+1).0.0`; the
retained components are reproduced unchanged (so nothing decrements), and
arithmetic is over unbounded naturals (so nothing wraps). -/
theorem c4_bump_version (s : String) (M m p : Nat)
    (h : parse_semantic_version s = some (M, m, p)) :
    bump_version s .patch =
      some (toString M ++ "." ++ toString m ++ "." ++ toString (p + 1)) ∧
    bump_version s .minor =
      some (toString M ++ "." ++ toString (m + 1) ++ ".0") ∧
    bump_version s .major = some (toString (M + 1) ++ ".0.0") := by
  refine ⟨?_, ?_, ?_⟩ <;> simp [bump_version, h]

theorem c4_bump_version_witness :
    parse_semantic_version "1.2.3" = some (1, 2, 3) ∧
    (bump_version "1.2.3" .patch =
      some (toString 1 ++ "." ++ toString 2 ++ "." ++ toString (3 + 1)) ∧
    bump_version "1.2.3" .minor =
      some (toString 1 ++ "." ++ toString (2 + 1) ++ ".0") ∧
    bump_version "1.2.3" .major = some (toString (1 + 1) ++ ".0.0")) :=
  ⟨by decide, c4_bump_version "1.2.3" 1 2 3 (by decide)⟩

/-- C5: for every base name, `generate_docker_tags` on `"1.2.3"` with
`include_latest` and without chainguard tags returns exactly
`[base:1.2.3, base:1.2, base:1, base:latest]` in that order, and on
`"2.0.1"` without `latest` returns exactly `[base:2.0.1, base:2.0, base:2]`;
in particular the full version tag is the first element of both. -/
theorem c5_generate_tags (base dateStr : String) (gitHash : Option String) :
    generate_docker_tags base "1.2.3" true false dateStr gitHash =
      some [base ++ ":1.2.3", base ++ ":1.2", base ++ ":1", base ++ ":latest"] ∧
    generate_docker_tags base "2.0.1" false false dateStr gitHash =
      some [base ++ ":2.0.1", base ++ ":2.0", base ++ ":2"] := by
  have h1 : splitOn '.' "1.2.3".data = [['1'], ['2'], ['3']] := by decide
  have h2 : splitOn '.' "2.0.1".data = [['2'], ['0'], ['1']] := by decide
  constructor <;>
  · simp [generate_docker_tags, h1, h2]
    refine ⟨?_, ?_, ?_⟩ <;>
    · apply String.ext
      simp [String.data_append]

/-- C3 (counterexample to the claim as stated): with chainguard tags enabled
(date `20230501`, git hash available as `abc1234`), the produced tag set is
exactly the base tags followed by the date tag and the hash tag; in
particular no static `secure` tag, no `v`-prefixed full version tag and no
`M.m-chainguard` tag is present, contradicting the claimed appended tags. -/
theorem c3_chainguard_counterexample :
    generate_docker_tags "b" "1.2.3" true true "20230501" (some "abc1234") =
      some ["b:1.2.3", "b:1.2", "b:1", "b:latest", "b:20230501", "b:abc1234"] ∧
    "b:secure" ∉ ["b:1.2.3", "b:1.2", "b:1", "b:latest", "b:20230501", "b:abc1234"] ∧
    "b:v1.2.3" ∉ ["b:1.2.3", "b:1.2", "b:1", "b:latest", "b:20230501", "b:abc1234"] ∧
    "b:1.2-chainguard" ∉ ["b:1.2.3", "b:1.2", "b:1", "b:latest", "b:20230501", "b:abc1234"] := by
  refine ⟨by decide, by decide, by decide, by decide⟩

/-- C3 (amended): for every base name, version and flag setting, enabling
`chainguard_tags` appends — after the unchanged, un-reordered base tags —
exactly a date tag (`YYYYMMDD` from the clock) and then a short-commit-hash
tag, the latter omitted silently when the git call fails; nothing else is
added. -/
theorem c3_chainguard_amended (base version : String) (includeLatest : Bool)
    (dateStr : String) (gitHash : Option String) :
    generate_docker_tags base version includeLatest true dateStr gitHash =
      (generate_docker_tags base version includeLatest false dateStr gitHash).map
        fun tags => tags ++ [base ++ ":" ++ dateStr] ++
          (match gitHash with
           | some h => [base ++ ":" ++ h]
           | none => []) := by
  unfold generate_docker_tags
  cases splitOn '.' version.data with
  | nil => rfl
  | cons p0 t =>
    cases t with
    | nil => rfl
    | cons p1 t2 => cases includeLatest <;> cases gitHash <;> simp

/-- C10: `generate_docker_tags` has an unstated precondition on `version`:
with fewer than two `.`-separated components the indexing
`version_parts[1]` raises an uncaught `IndexError` (modelled `none`) for
every flag combination, and with at least two components the function
always reaches its normal return (modelled `some`). -/
theorem c10_tags_index_error (base version : String) (il cg : Bool)
    (dateStr : String) (gitHash : Option String) :
    ((splitOn '.' version.data).length < 2 →
      generate_docker_tags base version il cg dateStr gitHash = none) ∧
    (2 ≤ (splitOn '.' version.data).length →
      ∃ l, generate_docker_tags base version il cg dateStr gitHash = some l) := by
  unfold generate_docker_tags
  cases h : splitOn '.' version.data with
  | nil => simp
  | cons p0 t =>
    cases t with
    | nil => simp
    | cons p1 t2 =>
      constructor
      · intro hlt; simp at hlt; omega
      · intro _; exact ⟨_, rfl⟩

theorem c10_tags_index_error_witness :
    ((splitOn '.' "latest".data).length < 2 ∧
      generate_docker_tags "b" "latest" true false "d" none = none) ∧
    (2 ≤ (splitOn '.' "1.2".data).length ∧
      ∃ l, generate_docker_tags "b" "1.2" true false "d" none = some l) :=
  ⟨⟨by decide, (c10_tags_index_error "b" "latest" true false "d" none).1 (by decide)⟩,
   ⟨by decide, (c10_tags_index_error "b" "1.2" true false "d" none).2 (by decide)⟩⟩

/-- C6: in JSON mode the scan verdict is `passed = (aggregated CRITICAL
count = 0)` — where the aggregate equals the total number of CRITICAL
entries across all result groups — so a report with exactly one CRITICAL
entry and no other entries yields `passed = false` and
`vulnerability_counts.CRITICAL = 1`; in text mode
`passed = false` exactly when the output text contains the substring
`CRITICAL`. -/
theorem c6_scan_verdicts (rep : ScanReport) (stdout : String) :
    ((countVulns rep).critical = criticalCount rep) ∧
    ((scan_docker_image_json rep).1 = true ↔ criticalCount rep = 0) ∧
    (scan_docker_image_json ⟨[⟨[⟨some "CRITICAL"⟩]⟩]⟩ =
      (false, ⟨1, 0, 0, 0, 0⟩)) ∧
    ((scan_docker_image_text stdout).1 = false ↔
      ∃ pre post, stdout.data = pre ++ "CRITICAL".data ++ post) := by
  refine ⟨countVulns_critical rep, ?_, by decide, ?_⟩
  · simp [scan_docker_image_json, countVulns_critical rep]
  · simpa [scan_docker_image_text] using
      containsSeq_iff "CRITICAL".data stdout.data

/-- C7: whenever the Dockerfile path does not exist, `build_docker_image`
fails (raises `DockerError`) without ever invoking the `docker build`
subprocess, and — when the engine itself is reachable, so that the check is
the one that fires — the error is precisely the named precondition failure
`"Dockerfile not found at <path>"`. -/
theorem c7_dockerfile_missing (env : BuildEnv) (dp cp : String)
    (iname : Option String) (args : List (String × String)) (cache : Bool)
    (plat : Option String) (h : env.fileExists dp = false) :
    ((build_docker_image env dp cp iname args cache plat).2 = false ∧
      ∃ e, (build_docker_image env dp cp iname args cache plat).1 = .error e) ∧
    (env.dockerInstalled = true →
      (build_docker_image env dp cp iname args cache plat).1 =
        .error ("Dockerfile not found at " ++ dp)) := by
  unfold build_docker_image
  cases hd : env.dockerInstalled <;> simp [h, hd]

theorem c7_dockerfile_missing_witness :
    ({ dockerInstalled := true, fileExists := fun _ => false,
       projectName := "devkit", currentVersion := "1.2.3",
       buildSucceeds := true, buildErr := "" } : BuildEnv).fileExists "Dockerfile" = false ∧
    (((build_docker_image
        { dockerInstalled := true, fileExists := fun _ => false,
          projectName := "devkit", currentVersion := "1.2.3",
          buildSucceeds := true, buildErr := "" }
        "Dockerfile" "." none [] true none).2 = false ∧
      ∃ e, (build_docker_image
        { dockerInstalled := true, fileExists := fun _ => false,
          projectName := "devkit", currentVersion := "1.2.3",
          buildSucceeds := true, buildErr := "" }
        "Dockerfile" "." none [] true none).1 = .error e) ∧
    (({ dockerInstalled := true, fileExists := fun _ => false,
        projectName := "devkit", currentVersion := "1.2.3",
        buildSucceeds := true, buildErr := "" } : BuildEnv).dockerInstalled = true →
      (build_docker_image
        { dockerInstalled := true, fileExists := fun _ => false,
          projectName := "devkit", currentVersion := "1.2.3",
          buildSucceeds := true, buildErr := "" }
        "Dockerfile" "." none [] true none).1 =
          .error ("Dockerfile not found at " ++ "Dockerfile"))) :=
  ⟨rfl, c7_dockerfile_missing _ "Dockerfile" "." none [] true none rfl⟩

/-- C8: with no key path and outside a recognised CI environment
(`GITHUB_ACTIONS` unset), `sign_image` reports failure without invoking
cosign, and when cosign is present the failure message is exactly the
keyless-requires-CI error; `verify_image_signature` has no such CI
restriction: whenever cosign is present it invokes the verification
subprocess for any key-path argument, in any environment. -/
theorem c8_keyless_ci (env : SignEnv) (img : String)
    (hci : env.githubActions = false) :
    ((sign_image env img none).2 = false ∧
      (sign_image env img none).1.1 = false) ∧
    (env.cosignInstalled = true →
      (sign_image env img none).1.2 =
        "Keyless signing requires CI environment or explicit key path") ∧
    (env.cosignInstalled = true →
      ∀ keyPath, (verify_image_signature env img keyPath).2 = true) := by
  refine ⟨?_, ?_, ?_⟩
  · unfold sign_image
    cases hc : env.cosignInstalled <;> simp [hci, hc]
  · intro hc
    unfold sign_image
    simp [hci, hc]
  · intro hc keyPath
    unfold verify_image_signature
    rcases hv : env.verifyRun with ⟨b, o, e⟩
    cases b <;> simp [hc, hv]

theorem c8_keyless_ci_witness :
    ({ cosignInstalled := true, githubActions := false,
       signRun := (true, ""), verifyRun := (true, "sig-ok", "") } : SignEnv).githubActions = false ∧
    (((sign_image
        { cosignInstalled := true, githubActions := false,
          signRun := (true, ""), verifyRun := (true, "sig-ok", "") } "img:1" none).2 = false ∧
      (sign_image
        { cosignInstalled := true, githubActions := false,
          signRun := (true, ""), verifyRun := (true, "sig-ok", "") } "img:1" none).1.1 = false) ∧
    (({ cosignInstalled := true, githubActions := false,
        signRun := (true, ""), verifyRun := (true, "sig-ok", "") } : SignEnv).cosignInstalled = true →
      (sign_image
        { cosignInstalled := true, githubActions := false,
          signRun := (true, ""), verifyRun := (true, "sig-ok", "") } "img:1" none).1.2 =
        "Keyless signing requires CI environment or explicit key path") ∧
    (({ cosignInstalled := true, githubActions := false,
        signRun := (true, ""), verifyRun := (true, "sig-ok", "") } : SignEnv).cosignInstalled = true →
      ∀ keyPath, (verify_image_signature
        { cosignInstalled := true, githubActions := false,
          signRun := (true, ""), verifyRun := (true, "sig-ok", "") } "img:1" keyPath).2 = true)) :=
  ⟨rfl, c8_keyless_ci _ "img:1" rfl⟩

/-! ### Pipeline scenario environments -/

/-- A run in which every stage that executes succeeds. -/
def allGreenEnv : PipelineEnv :=
  { buildOutcome := .ok "devkit:1.2.3"
    testOutcome := .ok (true, "Container test successful")
    scanOutcome := .ok (true, "scan-report")
    sbomOutcome := .ok (true, "sboms/devkit-1.2.3.sbom.json")
    policyCheck := fun _ => (true, "pass")
    currentVersion := "1.2.3"
    dateStr := "20230501"
    gitHash := some "abc1234"
    tagOutcome := .ok ["r:1.2.3"]
    signOutcome := (true, "Image signed successfully")
    pushOutcome := .ok ["r:1.2.3"] }

/-- A run in which build and test succeed and the scan reports failure. -/
def scanFailEnv : PipelineEnv :=
  { allGreenEnv with
    buildOutcome := .ok "img:1"
    testOutcome := .ok (true, "t")
    scanOutcome := .ok (false, "critical-report") }

/-- The results mapping produced by `scanFailEnv` with no registry, policy
files, manifest or push flag. -/
def scanFailRes : PipelineResults :=
  { build := some ⟨true, .str "img:1"⟩
    test := some ⟨true, .str "t"⟩
    scan := some ⟨false, .str "critical-report"⟩
    sbom := some ⟨false, .null⟩
    policy := some ⟨false, .null⟩
    tag := none
    sign := some ⟨false, .null⟩
    push := some ⟨false, .null⟩ }

/-- C1: the claim is refuted by the code: in a run where every executed
stage succeeds and the policy stage is skipped (no policy files given), the
results dict still carries the pre-initialised `policy` entry with
`success = False`, so the `secure` subcommand exits 1 — the claimed
exit code is 0.  This theorem evaluates the embedding at that failing
input: build/test/scan/sbom all succeed, yet the exit code is 1. -/
theorem c1_secure_exit_code_bug :
    secure_pipeline allGreenEnv none none none false =
      .ok { build := some ⟨true, .str "devkit:1.2.3"⟩
            test := some ⟨true, .str "Container test successful"⟩
            scan := some ⟨true, .str "scan-report"⟩
            sbom := some ⟨true, .str "sboms/devkit-1.2.3.sbom.json"⟩
            policy := some ⟨false, .null⟩
            tag := none
            sign := some ⟨false, .null⟩
            push := some ⟨false, .null⟩ } ∧
    secureCmdExit allGreenEnv none none none false = 1 :=
  ⟨rfl, rfl⟩

/-- C2 (counterexample to the claim as stated): in the claimed scenario
(build and test succeed, scan fails) the returned mapping does contain
`sbom`, `policy`, `sign` and `push` keys — they are pre-initialised by
`secure_pipeline` — contradicting "no sbom/policy/tag/sign/push keys";
only the `tag` key is absent. -/
theorem c2_scan_halt_counterexample :
    secure_pipeline scanFailEnv none none none false = .ok scanFailRes ∧
    scanFailRes.sbom.isSome = true ∧ scanFailRes.policy.isSome = true ∧
    scanFailRes.sign.isSome = true ∧ scanFailRes.push.isSome = true :=
  ⟨rfl, rfl, rfl, rfl, rfl⟩

/-- C2 (amended): the scan stage is fatal: whenever build and test succeed
and the scan returns a failing verdict, the pipeline halts immediately
after scan — for every argument combination the result is exactly
`build.success = true`, `test.success = true`, `scan.success = false`, no
`tag` key, and the `sbom`/`policy`/`sign`/`push` entries still in their
pre-initialised `success = false`, `output = None` state. -/
theorem c2_scan_halt_amended (env : PipelineEnv) (registry : Option String)
    (policyFiles : Option (List String)) (k8sManifest : Option String)
    (push : Bool) (img out1 out2 : String)
    (hb : env.buildOutcome = .ok img)
    (ht : env.testOutcome = .ok (true, out1))
    (hs : env.scanOutcome = .ok (false, out2)) :
    secure_pipeline env registry policyFiles k8sManifest push =
      .ok { build := some ⟨true, .str img⟩
            test := some ⟨true, .str out1⟩
            scan := some ⟨false, .str out2⟩
            sbom := some ⟨false, .null⟩
            policy := some ⟨false, .null⟩
            tag := none
            sign := some ⟨false, .null⟩
            push := some ⟨false, .null⟩ } := by
  unfold secure_pipeline
  rw [hb, ht, hs]
  rfl

theorem c2_scan_halt_witness :
    scanFailEnv.buildOutcome = .ok "img:1" ∧
    scanFailEnv.testOutcome = .ok (true, "t") ∧
    scanFailEnv.scanOutcome = .ok (false, "critical-report") ∧
    secure_pipeline scanFailEnv (some "reg") (some ["p.yaml"]) (some "m.yaml") true =
      .ok { build := some ⟨true, .str "img:1"⟩
            test := some ⟨true, .str "t"⟩
            scan := some ⟨false, .str "critical-report"⟩
            sbom := some ⟨false, .null⟩
            policy := some ⟨false, .null⟩
            tag := none
            sign := some ⟨false, .null⟩
            push := some ⟨false, .null⟩ } :=
  ⟨rfl, rfl, rfl,
    c2_scan_halt_amended scanFailEnv (some "reg") (some ["p.yaml"]) (some "m.yaml")
      true "img:1" "t" "critical-report" rfl rfl rfl⟩

/-! ## versioning.py: `update_version_in_files`

The function rewrites two files with Python `re.sub`:
* `devkit/__init__.py` with pattern `__version__\s*=\s*"[^"]+"` and
  replacement `__version__ = "<v>"`;
* `setup.py` with pattern `version="[^"]+"` and replacement
  `version="<v>"`.

`re.sub` is embedded as a character-list scanner: at each position it tries
the pattern; on a match it emits the replacement and resumes after the
match, otherwise it emits the character and advances by one.  The greedy
sub-parts of these patterns (`\s*`, `[^"]+`) never need backtracking
because their follow characters (`=`, `"`) are excluded from the repeated
class, so `dropWhile`/`takeWhile` realise them exactly.  The replacement
string is inserted literally; version strings containing a backslash are
outside the modelled domain (Python additionally processes template
escapes like `\g<0>` there, and the theorems below assume backslash-free
versions). -/

/-- "contains no double quote". -/
abbrev NQ (l : List Char) : Prop := ∀ c ∈ l, c ≠ '"'

/-- Python's `\s` character class (`re` whitespace for `str` patterns). -/
def isWsChar (c : Char) : Bool :=
  c = ' ' || c = '\t' || c = '\n' || c = '\r' || c = '\x0b' || c = '\x0c' ||
  c = '\x1c' || c = '\x1d' || c = '\x1e' || c = '\x1f' || c = '\x85' ||
  c = '\xa0' || c = '\u1680' || ('\u2000' ≤ c && c ≤ '\u200A') ||
  c = '\u2028' || c = '\u2029' || c = '\u202F' || c = '\u205F' || c = '\u3000'

/-- "all whitespace". -/
abbrev AllWs (l : List Char) : Prop := ∀ c ∈ l, isWsChar c = true

/-- Match a literal character sequence at the head of a list, returning the
remainder on success. -/
def stripPrefixSeq : List Char → List Char → Option (List Char)
  | [], s => some s
  | _ :: _, [] => none
  | p :: ps, c :: cs => if p = c then stripPrefixSeq ps cs else none

theorem stripPrefixSeq_append (p s : List Char) :
    stripPrefixSeq p (p ++ s) = some s := by
  induction p with
  | nil => rfl
  | cons a as ih => simp [stripPrefixSeq, ih]

theorem stripPrefixSeq_eq_some {p s r : List Char}
    (h : stripPrefixSeq p s = some r) : s = p ++ r := by
  induction p generalizing s with
  | nil =>
    have : s = r := by simpa [stripPrefixSeq] using h
    simp [this]
  | cons a as ih =>
    cases s with
    | nil => simp [stripPrefixSeq] at h
    | cons c cs =>
      simp only [stripPrefixSeq] at h
      split at h
      · next heq => simp [heq, ih h]
      · exact absurd h (by simp)

/-- Fuel-driven global substitution: scan left to right, on a match emit
`repl` and resume after the match, otherwise emit the character.  The fuel
(always instantiated with the input length, which suffices because a match
consumes at least one character) makes the definition structurally
recursive and kernel-computable. -/
def subF (f : List Char → Option (List Char)) (repl : List Char) :
    Nat → List Char → List Char
  | 0, s => s
  | _ + 1, [] => []
  | fuel + 1, c :: cs =>
    match f (c :: cs) with
    | some rest => repl ++ subF f repl fuel rest
    | none => c :: subF f repl fuel cs

/-- `re.sub(pattern, repl, s)` for a matcher `f` trying `pattern` at one
position. -/
def subAll (f : List Char → Option (List Char)) (repl : List Char)
    (s : List Char) : List Char :=
  subF f repl s.length s

section SubLemmas

variable {f : List Char → Option (List Char)} {repl : List Char}

theorem subF_mono (hf : ∀ s r, f s = some r → r.length < s.length) :
    ∀ fuel s, s.length ≤ fuel → subF f repl fuel s = subAll f repl s := by
  intro fuel
  induction fuel using Nat.strong_induction_on with
  | _ fuel ih =>
    intro s hs
    cases fuel with
    | zero =>
      have : s = [] := List.eq_nil_of_length_eq_zero (Nat.le_zero.mp hs)
      subst this; rfl
    | succ n =>
      cases s with
      | nil => rfl
      | cons c cs =>
        show subF f repl (n + 1) (c :: cs) = subF f repl (cs.length + 1) (c :: cs)
        simp only [subF]
        simp only [List.length_cons] at hs
        cases h : f (c :: cs) with
        | some rest =>
          have hlt := hf _ _ h
          simp only [List.length_cons] at hlt
          dsimp only
          rw [ih n (Nat.lt_succ_self n) rest (by omega),
            ih cs.length (by omega) rest (by omega)]
        | none =>
          dsimp only
          rw [ih n (Nat.lt_succ_self n) cs (by omega),
            ih cs.length (by omega) cs (by omega)]

theorem subAll_nil : subAll f repl [] = [] := rfl

theorem subAll_cons_some (hf : ∀ s r, f s = some r → r.length < s.length)
    {c : Char} {cs rest : List Char} (h : f (c :: cs) = some rest) :
    subAll f repl (c :: cs) = repl ++ subAll f repl rest := by
  show subF f repl (cs.length + 1) (c :: cs) = _
  simp only [subF, h]
  have hlt := hf _ _ h
  simp only [List.length_cons] at hlt
  rw [subF_mono hf cs.length rest (by omega)]

theorem subAll_cons_none {c : Char} {cs : List Char}
    (h : f (c :: cs) = none) :
    subAll f repl (c :: cs) = c :: subAll f repl cs := by
  show subF f repl (cs.length + 1) (c :: cs) = _
  simp only [subF, h]
  rfl

end SubLemmas

theorem NQ.append {a b : List Char} (ha : NQ a) (hb : NQ b) : NQ (a ++ b) := by
  intro c hc
  rcases List.mem_append.mp hc with h | h
  · exact ha c h
  · exact hb c h

theorem NQ.of_append_left {a b : List Char} (h : NQ (a ++ b)) : NQ a :=
  fun c hc => h c (List.mem_append.mpr (.inl hc))

theorem NQ.of_append_right {a b : List Char} (h : NQ (a ++ b)) : NQ b :=
  fun c hc => h c (List.mem_append.mpr (.inr hc))

/-! ### The shape shared by the two substitution patterns

Both patterns are "a prefix part ending in an opening quote, then a
non-empty run of non-quote characters, then a closing quote": for
`__version__\s*=\s*"[^"]+"` the prefix part is
`__version__` + whitespace + `=` + whitespace + `"`, and for
`version="[^"]+"` it is the literal `version="`.  `ReSubSpec` captures the
facts about a matcher `f`, a replacement `repl`, and the set `Pre` of
prefix parts that make global substitution idempotent. -/

structure ReSubSpec (f : List Char → Option (List Char)) (repl : List Char)
    (Pre : List Char → Prop) : Prop where
  /-- a successful match decomposes the input -/
  m1 : ∀ s r, f s = some r →
    ∃ pre b, Pre pre ∧ b ≠ [] ∧ NQ b ∧ s = pre ++ b ++ '"' :: r
  /-- any input of that shape matches, with exactly that remainder -/
  m2 : ∀ pre b r, Pre pre → b ≠ [] → NQ b → f (pre ++ b ++ '"' :: r) = some r
  /-- a prefix part is non-quote characters followed by the opening quote -/
  preQ : ∀ p, Pre p → ∃ q, q ≠ [] ∧ NQ q ∧ p = q ++ ['"']
  /-- the replacement starts with a non-empty quote-free run up to its
  first quote -/
  replQ : ∃ nq rest, nq ≠ [] ∧ NQ nq ∧ repl = nq ++ '"' :: rest
  /-- no non-empty proper suffix of a prefix part is a prefix of
  `repl ++ anything` -/
  overlap : ∀ cP Z U V, cP ≠ [] → Z ≠ [] → Pre (cP ++ Z) →
    Z ++ U = repl ++ V → False
  /-- substitution walks through an inserted replacement unchanged -/
  substRepl : ∀ T, subAll f repl (repl ++ T) = repl ++ subAll f repl T

namespace ReSubSpec

variable {f : List Char → Option (List Char)} {repl : List Char}
  {Pre : List Char → Prop}

theorem consume (spec : ReSubSpec f repl Pre) :
    ∀ s r, f s = some r → r.length < s.length := by
  intro s r h
  obtain ⟨pre, b, _, _, _, hs⟩ := spec.m1 s r h
  subst hs
  simp only [List.length_append, List.length_cons]
  omega

/-- First-match decomposition of a whole substitution run: either nothing
matches anywhere and the input is returned unchanged, or the input splits
as unmatched prefix + first match + remainder, and the output is that
prefix, the replacement, and the recursively substituted remainder. -/
theorem decomp (spec : ReSubSpec f repl Pre) :
    ∀ s, subAll f repl s = s ∨
      ∃ P pre b rest, Pre pre ∧ b ≠ [] ∧ NQ b ∧
        s = P ++ pre ++ b ++ '"' :: rest ∧
        subAll f repl s = P ++ repl ++ subAll f repl rest := by
  intro s
  induction s with
  | nil => left; rfl
  | cons c cs ih =>
    cases h : f (c :: cs) with
    | some r =>
      right
      obtain ⟨pre, b, hPre, hb, hnq, hs⟩ := spec.m1 _ _ h
      refine ⟨[], pre, b, r, hPre, hb, hnq, by simpa using hs, ?_⟩
      rw [subAll_cons_some spec.consume h]
      simp
    | none =>
      rcases ih with heq | ⟨P, pre, b, rest, hPre, hb, hnq, hcs, hsub⟩
      · left; rw [subAll_cons_none h, heq]
      · right
        refine ⟨c :: P, pre, b, rest, hPre, hb, hnq, by simp [hcs], ?_⟩
        rw [subAll_cons_none h, hsub]
        simp

/-- Leftmost-priority preservation: if the pattern does not match at a
position, it still does not match there after the tail has been
substituted.  This is the heart of idempotence. -/
theorem noMatchStep (spec : ReSubSpec f repl Pre) {c : Char} {cs : List Char}
    (h : f (c :: cs) = none) : f (c :: subAll f repl cs) = none := by
  cases hm0 : f (c :: subAll f repl cs) with
  | none => rfl
  | some r' =>
  exfalso
  obtain ⟨PRE, B, hPreB, hBne, hBnq, hEq⟩ := spec.m1 _ _ hm0
  rcases spec.decomp cs with hid | ⟨P, pre_m, b_m, rest, hPm, hbm, hbmnq, hcs, hsub⟩
  · rw [hid, h] at hm0; cases hm0
  · rw [hsub] at hEq
    -- hEq : c :: (P ++ repl ++ subAll rest) = PRE ++ B ++ '"' :: r'
    have hEq' : (c :: P) ++ (repl ++ subAll f repl rest) =
        PRE ++ (B ++ '"' :: r') := by
      simpa [List.append_assoc] using hEq
    -- a successful match built on the original input contradicts `h`
    have contra : ∀ b r₀, Pre PRE → b ≠ [] → NQ b →
        c :: cs = PRE ++ b ++ '"' :: r₀ → False := by
      intro b r₀ hp hbne hbnq hshape
      have hsome := spec.m2 PRE b r₀ hp hbne hbnq
      rw [← hshape, h] at hsome
      cases hsome
    -- the main reconstruction: the boundary falls right after PRE's
    -- opening quote, with `Z` quote-free between PRE and the old match
    have mainZ : ∀ Z, c :: P = PRE ++ Z → NQ Z → False := by
      intro Z hcP hZnq
      obtain ⟨q, hq, hqnq, hpre_m⟩ := spec.preQ _ hPm
      apply contra (Z ++ q) (b_m ++ '"' :: rest) hPreB (by simp [hq])
        (hZnq.append hqnq)
      have : c :: cs = (c :: P) ++ (pre_m ++ (b_m ++ '"' :: rest)) := by
        rw [hcs]; simp [List.append_assoc]
      rw [this, hcP, hpre_m]
      simp [List.append_assoc]
    rcases List.append_eq_append_iff.mp hEq' with ⟨Z, hPRE, hstr⟩ | ⟨Z, hcP, hstr⟩
    · -- PRE = (c :: P) ++ Z
      cases Z with
      | nil => exact mainZ [] (by simpa using hPRE.symm) (by intro c hc; cases hc)
      | cons z0 Z' =>
        exact spec.overlap (c :: P) (z0 :: Z') (B ++ '"' :: r') _
          (by simp) (by simp) (hPRE ▸ hPreB) hstr.symm
    · -- c :: P = PRE ++ Z, and B ++ '"' :: r' = Z ++ (repl ++ subAll rest)
      rcases List.append_eq_append_iff.mp hstr with ⟨g, hZ, hg⟩ | ⟨g, hB, hg⟩
      · -- Z = B ++ g and '"' :: r' = g ++ (repl ++ subAll rest)
        obtain ⟨nq, rrest, hnqne, hnqnq, hrepl⟩ := spec.replQ
        cases g with
        | nil =>
          simp only [List.nil_append] at hg
          rw [hrepl] at hg
          cases nq with
          | nil => exact hnqne rfl
          | cons n0 ntl =>
            have : ('"' : Char) = n0 := by simpa using congrArg List.head? hg
            exact hnqnq n0 (by simp) this.symm
        | cons x g' =>
          have hx : x = '"' := by simpa using (congrArg List.head? hg).symm
          apply contra B (g' ++ (pre_m ++ (b_m ++ '"' :: rest))) hPreB hBne hBnq
          have h1 : c :: cs = (c :: P) ++ (pre_m ++ (b_m ++ '"' :: rest)) := by
            rw [hcs]; simp [List.append_assoc]
          rw [h1, hcP, hZ, hx]
          simp [List.append_assoc]
      · -- B = Z ++ g and repl ++ subAll rest = g ++ '"' :: r'
        obtain ⟨nq, rrest, hnqne, hnqnq, hrepl⟩ := spec.replQ
        have hsplit : nq ++ ('"' :: (rrest ++ subAll f repl rest)) =
            g ++ ('"' :: r') := by
          have hg' : (nq ++ '"' :: rrest) ++ subAll f repl rest =
              g ++ '"' :: r' := by rw [← hrepl]; exact hg
          simpa [List.append_assoc] using hg'
        rcases List.append_eq_append_iff.mp hsplit with ⟨u, hgu, hu⟩ | ⟨u, hnq2, hu⟩
        · -- g = nq ++ u
          cases u with
          | nil =>
            simp only [List.append_nil] at hgu
            exact mainZ Z hcP ((hgu ▸ hB : B = Z ++ nq) ▸ hBnq).of_append_left
          | cons y u' =>
            have hy : y = '"' := by simpa using (congrArg List.head? hu).symm
            have : ('"' : Char) ∈ B := by
              rw [hB, hgu, hy]; simp
            exact hBnq '"' this rfl
        · -- nq = g ++ u
          cases u with
          | nil =>
            simp only [List.append_nil] at hnq2
            exact mainZ Z hcP ((hnq2 ▸ hB : B = Z ++ nq) ▸ hBnq).of_append_left
          | cons y u' =>
            have hy : y = '"' := by simpa using (congrArg List.head? hu).symm
            have : ('"' : Char) ∈ nq := by rw [hnq2, hy]; simp
            exact hnqnq '"' this rfl

/-- Idempotence of global substitution, from the pattern facts. -/
theorem subAll_idem (spec : ReSubSpec f repl Pre) (s : List Char) :
    subAll f repl (subAll f repl s) = subAll f repl s := by
  have key : ∀ n s, s.length ≤ n →
      subAll f repl (subAll f repl s) = subAll f repl s := by
    intro n
    induction n with
    | zero =>
      intro s hs
      have : s = [] := List.eq_nil_of_length_eq_zero (Nat.le_zero.mp hs)
      subst this; rfl
    | succ n ih =>
      intro s hs
      cases s with
      | nil => rfl
      | cons c cs =>
        simp only [List.length_cons] at hs
        cases h : f (c :: cs) with
        | some rest =>
          have hlt := spec.consume _ _ h
          simp only [List.length_cons] at hlt
          rw [subAll_cons_some spec.consume h, spec.substRepl,
            ih rest (by omega)]
        | none =>
          rw [subAll_cons_none h, subAll_cons_none (spec.noMatchStep h),
            ih cs (by omega)]
  exact key s.length s le_rfl

end ReSubSpec

section SubHelpers

variable {f : List Char → Option (List Char)} {repl : List Char}

/-- Substitution walks through a block that matches nowhere (at no suffix
start, whatever follows) unchanged. -/
theorem subAll_append_of_no_match (X : List Char)
    (hX : ∀ i, i < X.length → ∀ T, f (X.drop i ++ T) = none) :
    ∀ T, subAll f repl (X ++ T) = X ++ subAll f repl T := by
  induction X with
  | nil => intro T; rfl
  | cons x xs ih =>
    intro T
    have h0 : f (x :: (xs ++ T)) = none := by simpa using hX 0 (by simp) T
    rw [show (x :: xs) ++ T = x :: (xs ++ T) from rfl, subAll_cons_none h0,
      ih (fun i hi T' => by simpa using hX (i + 1) (by simpa using hi) T') T]
    rfl

/-- When the matcher recognises the replacement itself at the head,
substitution steps over an inserted replacement in one move. -/
theorem subAll_repl_head (hf : ∀ s r, f s = some r → r.length < s.length)
    (hrepl : ∀ T, f (repl ++ T) = some T) (hne : repl ≠ []) :
    ∀ T, subAll f repl (repl ++ T) = repl ++ subAll f repl T := by
  intro T
  obtain ⟨r0, rtl, hr⟩ : ∃ a l, repl = a :: l := by
    cases hq : repl with
    | nil => exact absurd hq hne
    | cons a l => exact ⟨a, l, rfl⟩
  have h := hrepl T
  rw [hr, List.cons_append] at h
  rw [hr, List.cons_append, subAll_cons_some hf h]

end SubHelpers

theorem takeWhile_all_append {p : Char → Bool} {w : List Char}
    (hw : ∀ c ∈ w, p c = true) (t : List Char) :
    (w ++ t).takeWhile p = w ++ t.takeWhile p := by
  induction w with
  | nil => rfl
  | cons x xs ih =>
    simp only [List.cons_append, List.takeWhile_cons, hw x (by simp), if_true]
    rw [ih (fun c hc => hw c (by simp [hc]))]

theorem dropWhile_all_append {p : Char → Bool} {w : List Char}
    (hw : ∀ c ∈ w, p c = true) (t : List Char) :
    (w ++ t).dropWhile p = t.dropWhile p := by
  induction w with
  | nil => rfl
  | cons x xs ih =>
    simp only [List.cons_append, List.dropWhile_cons, hw x (by simp), if_true]
    exact ih (fun c hc => hw c (by simp [hc]))

theorem ws_ne_quote (c : Char) (h : isWsChar c = true) : c ≠ '"' := by
  intro hq; subst hq; exact absurd h (by decide)

/-! ### Pattern 1: `__version__\s*=\s*"[^"]+"` on `devkit/__init__.py` -/

/-- The literal head `__version__` of the first pattern. -/
def lit1 : List Char := ['_', '_', 'v', 'e', 'r', 's', 'i', 'o', 'n', '_', '_']

/-- Try pattern 1 at the head of `s`; on success return the remainder after
the match.  The greedy `\s*` runs are `dropWhile` (their follow characters
`=` and `"` are not whitespace) and the greedy `[^"]+` is `takeWhile`
(its follow character `"` is excluded from the class), so this is exactly
Python's matching of the pattern at one position. -/
def matchAt1 (s : List Char) : Option (List Char) :=
  match stripPrefixSeq lit1 s with
  | none => none
  | some s1 =>
    match s1.dropWhile isWsChar with
    | '=' :: s2 =>
      match s2.dropWhile isWsChar with
      | '"' :: s3 =>
        match s3.dropWhile (· != '"') with
        | '"' :: s4 =>
          if (s3.takeWhile (· != '"')).isEmpty then none else some s4
        | _ => none
      | _ => none
    | _ => none

/-- The replacement `__version__ = "<v>"` (inserted literally). -/
def repl1 (v : List Char) : List Char :=
  lit1 ++ [' ', '=', ' ', '"'] ++ v ++ ['"']

/-- The possible texts of a pattern-1 match up to and including its opening
quote. -/
def Pre1 (p : List Char) : Prop :=
  ∃ w1 w2, AllWs w1 ∧ AllWs w2 ∧ p = lit1 ++ w1 ++ ['='] ++ w2 ++ ['"']

theorem matchAt1_some {s r : List Char} (h : matchAt1 s = some r) :
    ∃ pre b, Pre1 pre ∧ b ≠ [] ∧ NQ b ∧ s = pre ++ b ++ '"' :: r := by
  unfold matchAt1 at h
  split at h
  · exact absurd h (by simp)
  · next s1 hstrip =>
    split at h
    · next s2 hd1 =>
      split at h
      · next s3 hd2 =>
        split at h
        · next s4 hd3 =>
          split at h
          · exact absurd h (by simp)
          · next hne =>
            have h1 : s = lit1 ++ s1 := stripPrefixSeq_eq_some hstrip
            have h2 : s1 = s1.takeWhile isWsChar ++ '=' :: s2 := by
              conv_lhs => rw [← List.takeWhile_append_dropWhile isWsChar s1]
              rw [hd1]
            have h3 : s2 = s2.takeWhile isWsChar ++ '"' :: s3 := by
              conv_lhs => rw [← List.takeWhile_append_dropWhile isWsChar s2]
              rw [hd2]
            have h4 : s3 = s3.takeWhile (· != '"') ++ '"' :: s4 := by
              conv_lhs =>
                rw [← List.takeWhile_append_dropWhile (· != '"') s3]
              rw [hd3]
            have hr : s4 = r := by simpa using h
            rw [h2] at h1
            rw [h3] at h1
            rw [h4] at h1
            rw [hr] at h1
            refine ⟨lit1 ++ s1.takeWhile isWsChar ++ ['='] ++
                s2.takeWhile isWsChar ++ ['"'], s3.takeWhile (· != '"'),
              ⟨s1.takeWhile isWsChar, s2.takeWhile isWsChar,
                fun c hc => List.mem_takeWhile_imp hc,
                fun c hc => List.mem_takeWhile_imp hc, rfl⟩,
              by simpa [List.isEmpty_iff] using hne,
              fun c hc => by simpa using List.mem_takeWhile_imp hc, ?_⟩
            rw [h1]
            simp [List.append_assoc]
        · exact absurd h (by simp)
      · exact absurd h (by simp)
    · exact absurd h (by simp)

theorem matchAt1_shape (pre b r : List Char) (hp : Pre1 pre) (hb : b ≠ [])
    (hnq : NQ b) : matchAt1 (pre ++ b ++ '"' :: r) = some r := by
  obtain ⟨w1, w2, hw1, hw2, rfl⟩ := hp
  have hnqb : ∀ c ∈ b, (c != '"') = true := fun c hc => by
    simpa using hnq c hc
  have harr : (lit1 ++ w1 ++ ['='] ++ w2 ++ ['"']) ++ b ++ '"' :: r =
      lit1 ++ (w1 ++ '=' :: (w2 ++ '"' :: (b ++ '"' :: r))) := by
    simp [List.append_assoc]
  rw [harr]
  unfold matchAt1
  rw [stripPrefixSeq_append]
  simp only [dropWhile_all_append hw1, dropWhile_all_append hw2,
    dropWhile_all_append hnqb,
    List.dropWhile_cons, takeWhile_all_append hnqb,
    show isWsChar '=' = false from rfl, show isWsChar '"' = false from rfl,
    if_false, List.takeWhile_cons, show ('"' != '"') = false from rfl,
    Bool.false_eq_true, List.append_nil]
  simp [List.isEmpty_iff, hb]

theorem matchAt1_consume : ∀ s r, matchAt1 s = some r → r.length < s.length := by
  intro s r h
  obtain ⟨pre, b, _, _, _, hs⟩ := matchAt1_some h
  subst hs
  simp only [List.length_append, List.length_cons]
  omega

theorem overlap1 (v : List Char) : ∀ cP Z U V, cP ≠ [] → Z ≠ [] →
    Pre1 (cP ++ Z) → Z ++ U = repl1 v ++ V → False := by
  rintro cP Z U V hcP hZ ⟨w1, w2, hw1, hw2, hpre⟩ heq
  have hpre' : cP ++ Z = lit1 ++ (w1 ++ ['='] ++ w2 ++ ['"']) := by
    simpa [List.append_assoc] using hpre
  rcases List.append_eq_append_iff.mp hpre' with ⟨g, hlit, hZg⟩ | ⟨g, hcPg, hWg⟩
  · -- cP is a prefix of the literal: g is a proper suffix of `__version__`
    cases g with
    | nil =>
      -- Z starts with the whitespace-or-`=` region, but Z's head is `_`
      simp only [List.nil_append] at hZg
      rw [hZg] at heq
      cases w1 with
      | nil => simpa [repl1, lit1] using congrArg List.head? heq
      | cons x xs =>
        have hx : x = '_' := by simpa [repl1, lit1] using congrArg List.head? heq
        have hws := hw1 x (List.mem_cons_self x xs)
        rw [hx] at hws
        exact absurd hws (by decide)
    | cons g0 g' =>
      have heq2 : (g0 :: g') ++ ((w1 ++ ['='] ++ w2 ++ ['"']) ++ U) =
          lit1 ++ ([' ', '=', ' ', '"'] ++ (v ++ '"' :: V)) := by
        rw [hZg] at heq
        simpa [repl1, List.append_assoc] using heq
      rcases List.append_eq_append_iff.mp heq2 with ⟨u, hlitu, hQu⟩ | ⟨u, hgu, hu⟩
      · -- g is a border of the literal: only lengths 1 and 2 qualify
        have hdropg : lit1.drop cP.length = g0 :: g' := by
          have := List.drop_left cP (g0 :: g')
          rw [← hlit] at this
          exact this
        have htakeg : lit1.take (g0 :: g').length = g0 :: g' := by
          have := List.take_left (g0 :: g') u
          rw [← hlitu] at this
          exact this
        have hdropu : lit1.drop (g0 :: g').length = u := by
          have := List.drop_left (g0 :: g') u
          rw [← hlitu] at this
          exact this
        have hlen : cP.length + (g0 :: g').length = 11 := by
          have := congrArg List.length hlit
          simp only [lit1, List.length_append, List.length_cons,
            List.length_nil] at this
          simp only [List.length_cons]
          omega
        have hk1 : 1 ≤ cP.length := List.length_pos.mpr hcP
        have hk2 : cP.length ≤ 10 := by
          have : 1 ≤ (g0 :: g').length := by simp
          omega
        have hcomb : lit1.drop cP.length = lit1.take (11 - cP.length) := by
          rw [hdropg]
          have : (g0 :: g').length = 11 - cP.length := by omega
          rw [← this, htakeg]
        have hglen : (g0 :: g').length = 11 - cP.length := by omega
        set k := cP.length with hkdef
        interval_cases k
        · exact absurd hcomb (by decide)
        · exact absurd hcomb (by decide)
        · exact absurd hcomb (by decide)
        · exact absurd hcomb (by decide)
        · exact absurd hcomb (by decide)
        · exact absurd hcomb (by decide)
        · exact absurd hcomb (by decide)
        · exact absurd hcomb (by decide)
        · -- k = 9: g = ['_','_'], u = lit1.drop 2 starting with 'v'
          rw [hglen] at hdropu
          have hu' : u = lit1.drop 2 := by rw [← hdropu]
          subst hu'
          cases w1 with
          | nil => simpa [lit1] using congrArg List.head? hQu
          | cons x xs =>
            have hx : x = 'v' := by simpa [lit1] using congrArg List.head? hQu
            have hws := hw1 x (List.mem_cons_self x xs)
            rw [hx] at hws
            exact absurd hws (by decide)
        · -- k = 10: g = ['_'], u = lit1.drop 1 starting with '_'
          rw [hglen] at hdropu
          have hu' : u = lit1.drop 1 := by rw [← hdropu]
          subst hu'
          cases w1 with
          | nil => simpa [lit1] using congrArg List.head? hQu
          | cons x xs =>
            have hx : x = '_' := by simpa [lit1] using congrArg List.head? hQu
            have hws := hw1 x (List.mem_cons_self x xs)
            rw [hx] at hws
            exact absurd hws (by decide)
      · -- the literal would have to fit inside its own proper suffix
        have h1 := congrArg List.length hlit
        have h2 := congrArg List.length hgu
        simp only [lit1, List.length_append, List.length_cons,
          List.length_nil] at h1 h2
        have : 1 ≤ cP.length := List.length_pos.mpr hcP
        omega
  · -- Z is a suffix of the whitespace/`=`/quote region, yet starts with `_`
    cases Z with
    | nil => exact hZ rfl
    | cons z0 Z' =>
      have hz0 : z0 = '_' := by simpa [repl1, lit1] using congrArg List.head? heq
      subst hz0
      have hW' : w1 ++ ('=' :: (w2 ++ ['"'])) = g ++ '_' :: Z' := by
        simpa [List.append_assoc] using hWg
      rcases List.append_eq_append_iff.mp hW' with ⟨u, hgu, hu⟩ | ⟨u, hw1u, hu⟩
      · cases u with
        | nil => simpa using hu
        | cons y u' =>
          have hy : ('=' : Char) = y ∧ w2 ++ ['"'] = u' ++ '_' :: Z' := by
            simpa using hu
          rcases List.append_eq_append_iff.mp hy.2 with ⟨t, hut, ht⟩ | ⟨t, hw2t, ht⟩
          · cases t with
            | nil => simpa using ht
            | cons y2 t' =>
              have : ('"' : Char) = y2 ∧ [] = t' ++ '_' :: Z' := by simpa using ht
              have := this.2.symm
              simp at this
          · cases t with
            | nil => simpa using ht
            | cons y2 t' =>
              have hy2 : '_' = y2 ∧ Z' = t' ++ ['"'] := by simpa using ht
              have : y2 ∈ w2 := by rw [hw2t]; simp
              have hws := hw2 y2 this
              rw [← hy2.1] at hws
              exact absurd hws (by decide)
      · cases u with
        | nil => simpa using hu
        | cons y u' =>
          have hy : '_' = y ∧ Z' = u' ++ '=' :: (w2 ++ ['"']) := by
            simpa using hu
          have : y ∈ w1 := by rw [hw1u]; simp
          have hws := hw1 y this
          rw [← hy.1] at hws
          exact absurd hws (by decide)

theorem substRepl1 (v : List Char) (hv : NQ v) :
    ∀ T, subAll matchAt1 (repl1 v) (repl1 v ++ T) =
      repl1 v ++ subAll matchAt1 (repl1 v) T := by
  by_cases hv0 : v = []
  · subst hv0
    refine subAll_append_of_no_match (repl1 []) ?_
    intro i hi T
    have hi' : i < 16 := by simpa [repl1, lit1] using hi
    interval_cases i <;>
      simp [repl1, lit1, matchAt1, stripPrefixSeq, isWsChar]
  · refine subAll_repl_head matchAt1_consume ?_ (by simp [repl1, lit1])
    intro T
    have harr : repl1 v ++ T =
        (lit1 ++ [' '] ++ ['='] ++ [' '] ++ ['"']) ++ v ++ '"' :: T := by
      simp [repl1, List.append_assoc]
    rw [harr]
    exact matchAt1_shape _ v T ⟨[' '], [' '], by decide, by decide, by simp⟩
      hv0 hv

theorem reSubSpec1 (v : List Char) (hv : NQ v) :
    ReSubSpec matchAt1 (repl1 v) Pre1 where
  m1 := fun _ _ h => matchAt1_some h
  m2 := matchAt1_shape
  preQ := by
    rintro p ⟨w1, w2, hw1, hw2, rfl⟩
    refine ⟨lit1 ++ w1 ++ ['='] ++ w2, by simp [lit1], ?_,
      by simp [List.append_assoc]⟩
    intro c hc
    simp only [List.append_assoc, List.mem_append, List.mem_singleton] at hc
    rcases hc with hl | hw | he | hw2m
    · exact (show NQ lit1 by decide) c hl
    · exact ws_ne_quote c (hw1 c hw)
    · subst he; decide
    · exact ws_ne_quote c (hw2 c hw2m)
  replQ := ⟨lit1 ++ [' ', '=', ' '], v ++ ['"'], by simp [lit1], by decide,
    by simp [repl1, List.append_assoc]⟩
  overlap := overlap1 v
  substRepl := substRepl1 v hv

/-! ### Pattern 2: `version="[^"]+"` on `setup.py` -/

/-- The literal head `version="` of the second pattern (its opening quote
is part of the literal). -/
def lit2 : List Char := ['v', 'e', 'r', 's', 'i', 'o', 'n', '=', '"']

/-- Try pattern 2 at the head of `s`. -/
def matchAt2 (s : List Char) : Option (List Char) :=
  match stripPrefixSeq lit2 s with
  | none => none
  | some s1 =>
    match s1.dropWhile (· != '"') with
    | '"' :: s2 =>
      if (s1.takeWhile (· != '"')).isEmpty then none else some s2
    | _ => none

/-- The replacement `version="<v>"` (inserted literally). -/
def repl2 (v : List Char) : List Char := lit2 ++ v ++ ['"']

/-- The (single) text of a pattern-2 match up to its opening quote. -/
def Pre2 (p : List Char) : Prop := p = lit2

theorem matchAt2_some {s r : List Char} (h : matchAt2 s = some r) :
    ∃ pre b, Pre2 pre ∧ b ≠ [] ∧ NQ b ∧ s = pre ++ b ++ '"' :: r := by
  unfold matchAt2 at h
  split at h
  · exact absurd h (by simp)
  · next s1 hstrip =>
    split at h
    · next s2 hd =>
      split at h
      · exact absurd h (by simp)
      · next hne =>
        have h1 : s = lit2 ++ s1 := stripPrefixSeq_eq_some hstrip
        have h2 : s1 = s1.takeWhile (· != '"') ++ '"' :: s2 := by
          conv_lhs => rw [← List.takeWhile_append_dropWhile (· != '"') s1]
          rw [hd]
        have hr : s2 = r := by simpa using h
        rw [h2] at h1
        rw [hr] at h1
        refine ⟨lit2, s1.takeWhile (· != '"'), rfl,
          by simpa [List.isEmpty_iff] using hne,
          fun c hc => by simpa using List.mem_takeWhile_imp hc, ?_⟩
        rw [h1]
        simp [List.append_assoc]
    · exact absurd h (by simp)

theorem matchAt2_shape (pre b r : List Char) (hp : Pre2 pre) (hb : b ≠ [])
    (hnq : NQ b) : matchAt2 (pre ++ b ++ '"' :: r) = some r := by
  rw [show pre = lit2 from hp]
  have hnqb : ∀ c ∈ b, (c != '"') = true := fun c hc => by
    simpa using hnq c hc
  have harr : lit2 ++ b ++ '"' :: r = lit2 ++ (b ++ '"' :: r) := by
    simp [List.append_assoc]
  rw [harr]
  unfold matchAt2
  rw [stripPrefixSeq_append]
  simp only [dropWhile_all_append hnqb, takeWhile_all_append hnqb,
    List.dropWhile_cons, List.takeWhile_cons,
    show ('"' != '"') = false from rfl, Bool.false_eq_true, if_false,
    List.append_nil]
  simp [List.isEmpty_iff, hb]

theorem matchAt2_consume : ∀ s r, matchAt2 s = some r → r.length < s.length := by
  intro s r h
  obtain ⟨pre, b, _, _, _, hs⟩ := matchAt2_some h
  subst hs
  simp only [List.length_append, List.length_cons]
  omega

theorem overlap2 (v : List Char) : ∀ cP Z U V, cP ≠ [] → Z ≠ [] →
    Pre2 (cP ++ Z) → Z ++ U = repl2 v ++ V → False := by
  intro cP Z U V hcP hZ hpre heq
  have hdropZ : lit2.drop cP.length = Z := by
    have := List.drop_left cP Z
    rw [show cP ++ Z = lit2 from hpre] at this
    exact this
  have hlen : cP.length + Z.length = 9 := by
    have := congrArg List.length (show cP ++ Z = lit2 from hpre)
    simp only [List.length_append, lit2, List.length_cons,
      List.length_nil] at this
    omega
  have hk1 : 1 ≤ cP.length := List.length_pos.mpr hcP
  have hk2 : cP.length ≤ 8 := by
    have : 1 ≤ Z.length := List.length_pos.mpr hZ
    omega
  cases Z with
  | nil => exact hZ rfl
  | cons z0 Z' =>
    have hz0 : z0 = 'v' := by simpa [repl2, lit2] using congrArg List.head? heq
    subst hz0
    set k := cP.length with hkdef
    interval_cases k <;> simp [lit2] at hdropZ


theorem substRepl2 (v : List Char) (hv : NQ v) :
    ∀ T, subAll matchAt2 (repl2 v) (repl2 v ++ T) =
      repl2 v ++ subAll matchAt2 (repl2 v) T := by
  by_cases hv0 : v = []
  · subst hv0
    refine subAll_append_of_no_match (repl2 []) ?_
    intro i hi T
    have hi' : i < 10 := by simpa [repl2, lit2] using hi
    interval_cases i <;>
      simp [repl2, lit2, matchAt2, stripPrefixSeq]
  · refine subAll_repl_head matchAt2_consume ?_ (by simp [repl2, lit2])
    intro T
    have harr : repl2 v ++ T = lit2 ++ v ++ '"' :: T := by
      simp [repl2, List.append_assoc]
    rw [harr]
    exact matchAt2_shape _ v T rfl hv0 hv

theorem reSubSpec2 (v : List Char) (hv : NQ v) :
    ReSubSpec matchAt2 (repl2 v) Pre2 where
  m1 := fun _ _ h => matchAt2_some h
  m2 := matchAt2_shape
  preQ := by
    rintro p rfl
    exact ⟨['v', 'e', 'r', 's', 'i', 'o', 'n', '='], by simp, by decide, rfl⟩
  replQ := ⟨['v', 'e', 'r', 's', 'i', 'o', 'n', '='], v ++ ['"'], by simp,
    by decide, by simp [repl2, lit2, List.append_assoc]⟩
  overlap := overlap2 v
  substRepl := substRepl2 v hv

/-! ### `update_version_in_files` and idempotence -/

/-- The two version-declaration files rewritten by
`update_version_in_files` (the whole file contents, as character lists). -/
structure VersionFiles where
  initPy : List Char
  setupPy : List Char
deriving DecidableEq

/-- `update_version_in_files(new_version)` from `devkit/versioning.py`:
`re.sub` of pattern 1 over `devkit/__init__.py` and of pattern 2 over
`setup.py`, both files rewritten in place (the modelled run is one where
both files open and write successfully, so the function returns `True`;
I/O failures leave contents unchanged and are outside these claims). -/
def update_version_in_files (v : List Char) (files : VersionFiles) :
    VersionFiles :=
  { initPy := subAll matchAt1 (repl1 v) files.initPy
    setupPy := subAll matchAt2 (repl2 v) files.setupPy }

/-- C9 (counterexample to the claim as stated): with the version string
`1"2` (legal as "every version string" goes) and ordinary file contents,
the second application changes the files again: the first rewrite of
`__version__ = "0.1.0"` yields `__version__ = "1"2"`, whose prefix
`__version__ = "1"` matches the pattern once more, so the second
application yields `__version__ = "1"2"2"`; likewise for `setup.py`.
So `update_version_in_files` is not idempotent for every version string. -/
theorem c9_setversion_counterexample :
    update_version_in_files ['1', '"', '2']
      (update_version_in_files ['1', '"', '2']
        ⟨"__version__ = \"0.1.0\"".data, "version=\"0.1.0\"".data⟩) ≠
    update_version_in_files ['1', '"', '2']
      ⟨"__version__ = \"0.1.0\"".data, "version=\"0.1.0\"".data⟩ := by
  decide

/-- C9 (amended): `update_version_in_files` is idempotent for every
starting file contents and every version string containing no double quote
(and no backslash — backslashes additionally trigger `re.sub`'s
replacement-template escape processing, which the embedding does not
model, so they are excluded from the amended claim; the backslash
hypothesis is not needed for the embedded functions).  Applying the
operation twice with the same version leaves both files byte-identical to
their state after the first application. -/
theorem c9_setversion_idempotent (v : List Char) (files : VersionFiles)
    (hq : ∀ c ∈ v, c ≠ '"') (hbs : ∀ c ∈ v, c ≠ '\\') :
    update_version_in_files v (update_version_in_files v files) =
      update_version_in_files v files := by
  have h1 := (reSubSpec1 v hq).subAll_idem files.initPy
  have h2 := (reSubSpec2 v hq).subAll_idem files.setupPy
  unfold update_version_in_files
  exact congrArg₂ VersionFiles.mk h1 h2

theorem c9_setversion_idempotent_witness :
    (∀ c ∈ ['1', '.', '2', '.', '3'], c ≠ '"') ∧
    (∀ c ∈ ['1', '.', '2', '.', '3'], c ≠ '\\') ∧
    update_version_in_files ['1', '.', '2', '.', '3']
      (update_version_in_files ['1', '.', '2', '.', '3']
        ⟨"__version__ = \"0.1.0\"".data, "version=\"0.1.0\"".data⟩) =
    update_version_in_files ['1', '.', '2', '.', '3']
      ⟨"__version__ = \"0.1.0\"".data, "version=\"0.1.0\"".data⟩ :=
  ⟨by decide, by decide,
    c9_setversion_idempotent ['1', '.', '2', '.', '3'] _ (by decide) (by decide)⟩

end Devkit
